import Mathlib

/-!
Verification development for the yield-curve PCA / backtest engine.

The numerical engine (src/utils/math.ts and the backtest module) is embedded
shallowly: JavaScript numbers are modelled as exact rationals (ℚ), and the
transcendental library functions (Math.atan2 / cos / sin / sqrt) are passed in
as an explicit record of abstract operations (`NumOps`), so every definition
stays computable.  Theorems that do not depend on the values of those
operations are stated for every `NumOps`; concrete evaluations instantiate
them with `ratOps`, whose square root is exact on perfect rational squares
(every square root reached in the concrete runs below is of a perfect square,
so the run agrees with real-number semantics there).

Loosely-typed observation records (`d[tenor]` in JS) are modelled by
association lists of `JsVal`; `JsVal.nanVal` stands for any value whose
`Number(·)` coercion is NaN (missing key, non-numeric string, undefined).
`performPCA` NaN-guards every read to 0 exactly as the source does; the
backtest module reads `Number(today[tenor])` unguarded, which coincides with
the guarded read on fully numeric data — the regime its claims assume — so
both are embedded through the same `readNum`.
-/

namespace YC

/-- Abstract record of the transcendental operations the source calls. -/
structure NumOps where
  atan2 : ℚ → ℚ → ℚ
  cos : ℚ → ℚ
  sin : ℚ → ℚ
  sqrt : ℚ → ℚ

/-- A loosely-typed JavaScript value as seen through `Number(·)`:
either a numeric value, or anything that coerces to NaN. -/
inductive JsVal where
  | num (q : ℚ)
  | nanVal
  deriving DecidableEq

/-- True when `Number(v)` is not NaN. -/
def JsVal.isNumeric : JsVal → Bool
  | .num _ => true
  | .nanVal => false

/-- A row of the input time series: a date plus a loosely-typed record of
per-tenor yields (`YieldCurvePoint` in the source). -/
structure Observation where
  date : String
  yields : List (String × JsVal)
  deriving DecidableEq

/-- The NaN-guarded numeric read `isNaN(Number(d[t])) ? 0 : Number(d[t])`. -/
def readNum (d : Observation) (t : String) : ℚ :=
  match d.yields.lookup t with
  | some (.num q) => q
  | _ => 0

/-- All tenor values of an observation are present and numeric. -/
def NumericObs (d : Observation) (tenors : List String) : Prop :=
  ∀ t ∈ tenors, ((d.yields.lookup t).map JsVal.isNumeric).getD false = true

instance (d : Observation) (tenors : List String) :
    Decidable (NumericObs d tenors) := by
  unfold NumericObs; infer_instance

/-- Matrices are lists of rows of rationals. -/
abbrev Mat := List (List ℚ)

/-- Entry read `m[i][j]` (0 outside the bounds). -/
def getM (m : Mat) (i j : ℕ) : ℚ := (m.getD i []).getD j 0

/-- The per-index dot product `row.reduce((sum, val, idx) => sum + val * vec[idx], 0)`. -/
def dotIdx (row vec : List ℚ) : ℚ :=
  ((List.range row.length).map (fun j => row.getD j 0 * vec.getD j 0)).sum

/-- `computeMeanVector`: column-wise arithmetic means, `[]` on zero rows. -/
def computeMeanVector (data : Mat) : List ℚ :=
  if data.length = 0 then []
  else
    (List.range (data.getD 0 []).length).map
      (fun j => (data.map (fun row => row.getD j 0)).sum / (data.length : ℚ))

/-- `centerData`: subtract the column means from every row. -/
def centerData (data : Mat) (means : List ℚ) : Mat :=
  data.map (fun row =>
    (List.range row.length).map (fun j => row.getD j 0 - means.getD j 0))

/-- `computeCovarianceMatrix`: unbiased covariance of centered rows,
all-zero `m × m` matrix when fewer than two rows. -/
def computeCovarianceMatrix (centeredData : Mat) : Mat :=
  let n := centeredData.length
  let m := (centeredData.getD 0 []).length
  if n < 2 ∨ m = 0 then
    (List.range m).map (fun _ => (List.range m).map (fun _ => (0 : ℚ)))
  else
    (List.range m).map (fun i =>
      (List.range m).map (fun j =>
        (centeredData.map (fun row => row.getD i 0 * row.getD j 0)).sum
          / ((n - 1 : ℕ) : ℚ)))

/-- The identity matrix `V` the Jacobi iteration starts from. -/
def identityMat (n : ℕ) : Mat :=
  (List.range n).map (fun i => (List.range n).map (fun j => if i = j then (1 : ℚ) else 0))

/-- The scan for the off-diagonal entry of largest magnitude
(strictly-greater updates, exactly as the source's nested loops). -/
def offDiagMax (D : Mat) (n : ℕ) : ℚ × ℕ × ℕ :=
  (List.range n).foldl
    (fun acc i =>
      (List.range' (i + 1) (n - (i + 1))).foldl
        (fun (acc : ℚ × ℕ × ℕ) j =>
          if |getM D i j| > acc.1 then (|getM D i j|, i, j) else acc)
        acc)
    (0, 0, 0)

/-- One Givens rotation of the working matrix `D` and the accumulated
rotation matrix `V` at the pivot `(p, q)`.  Written as a functional update;
the source saves every entry it reads before overwriting it, so this is the
same map. -/
def jacobiRotate (ops : NumOps) (D V : Mat) (p q : ℕ) : Mat × Mat :=
  let Dpp := getM D p p
  let Dqq := getM D q q
  let Dpq := getM D p q
  let theta := 1/2 * ops.atan2 (2 * Dpq) (Dpp - Dqq)
  let c := ops.cos theta
  let s := ops.sin theta
  let n := D.length
  let newD := (List.range n).map (fun i =>
    (List.range n).map (fun j =>
      if i = p ∧ j = p then c * c * Dpp - 2 * s * c * Dpq + s * s * Dqq
      else if i = q ∧ j = q then s * s * Dpp + 2 * s * c * Dpq + c * c * Dqq
      else if (i = p ∧ j = q) ∨ (i = q ∧ j = p) then 0
      else if j = p then c * getM D i p - s * getM D i q
      else if i = p then c * getM D j p - s * getM D j q
      else if j = q then s * getM D i p + c * getM D i q
      else if i = q then s * getM D j p + c * getM D j q
      else getM D i j))
  let m := V.length
  let newV := (List.range m).map (fun i =>
    (List.range m).map (fun j =>
      if j = p then c * getM V i p - s * getM V i q
      else if j = q then s * getM V i p + c * getM V i q
      else getM V i j))
  (newD, newV)

/-- The bounded Jacobi sweep: stop when the largest off-diagonal magnitude
drops below `tol`, or when the iteration budget is exhausted (the source's
`for (let iter = 0; iter < maxIter; iter++)`). -/
def jacobiLoop (ops : NumOps) (tol : ℚ) : ℕ → Mat × Mat → Mat × Mat
  | 0, DV => DV
  | fuel + 1, (D, V) =>
    let m := offDiagMax D D.length
    if m.1 < tol then (D, V)
    else jacobiLoop ops tol fuel (jacobiRotate ops D V m.2.1 m.2.2)

/-- The diagonal of the working matrix, `D.map((row, i) => row[i])`. -/
def diagOf (D : Mat) (n : ℕ) : List ℚ :=
  (List.range n).map (fun i => getM D i i)

/-- Column `i` of the rotation matrix, `V.map(row => row[i])`. -/
def columnOf (V : Mat) (i : ℕ) : List ℚ := V.map (fun row => row.getD i 0)

/-- `jacobiEigen`: bounded Jacobi iteration followed by a stable descending
sort of the eigenvalues, with the eigenvector columns reordered alongside. -/
def jacobiEigen (ops : NumOps) (matrix : Mat) (maxIter : ℕ) (tol : ℚ) :
    List ℚ × List (List ℚ) :=
  let n := matrix.length
  if n = 0 then ([], [])
  else
    let DV := jacobiLoop ops tol maxIter (matrix, identityMat n)
    let eigenvalues := diagOf DV.1 n
    let indices := List.insertionSort
      (fun a b => eigenvalues.getD b 0 ≤ eigenvalues.getD a 0) (List.range n)
    (indices.map (fun i => eigenvalues.getD i 0),
     indices.map (fun i => columnOf DV.2 i))

/-- `alignEigenvectors`: the deterministic sign convention applied to the
first three components (`.map((vec, i) => ...)` in the source). -/
def alignEigenvectors (eigenvectors : List (List ℚ)) : List (List ℚ) :=
  (List.range eigenvectors.length).map (fun i =>
    let vec := eigenvectors.getD i []
    let sign : ℚ :=
      if i = 0 then
        if vec.sum < 0 then -1 else 1
      else if i = 1 then
        let slope := if vec.length > 0 then vec.getLastD 0 - vec.headD 0 else 0
        if slope < 0 then -1 else 1
      else if i = 2 then
        let midIdx := vec.length / 2
        let wingsAvg := if vec.length > 0 then (vec.headD 0 + vec.getLastD 0) / 2 else 0
        if vec.getD midIdx 0 < wingsAvg then -1 else 1
      else 1
    if sign = 1 then vec else vec.map (fun v => -v))

/-- Running partial sums (the `reduce` building `cumulativeVariance`). -/
def runningSums (l : List ℚ) : List ℚ :=
  (List.range l.length).map (fun i => (l.take (i + 1)).sum)

/-- The fitted-model record returned by `performPCA`. -/
structure PCAResult where
  eigenvalues : List ℚ
  eigenvectors : List (List ℚ)
  explainedVariance : List ℚ
  cumulativeVariance : List ℚ
  scores : List (List ℚ)
  meanVector : List ℚ
  tenors : List String
  deriving DecidableEq

/-- The numeric matrix `performPCA` builds from loosely-typed input
(every read NaN-guarded to 0). -/
def toMatrix (rawDateData : List Observation) (tenors : List String) : Mat :=
  rawDateData.map (fun d => tenors.map (fun t => readNum d t))

/-- `performPCA`: empty-input guard, NaN-guarded matrix, then
mean → center → covariance → Jacobi → sign alignment → variance
normalisation → score projection. -/
def performPCA (ops : NumOps) (rawDateData : List Observation)
    (tenors : List String) : PCAResult :=
  if rawDateData.isEmpty then ⟨[], [], [], [], [], [], tenors⟩
  else
    let matrix := toMatrix rawDateData tenors
    let meanVector := computeMeanVector matrix
    let centered := centerData matrix meanVector
    let cov := computeCovarianceMatrix centered
    let ev := jacobiEigen ops cov 100 (1 / 10 ^ 8)
    let eigenvalues := ev.1
    let alignedEigenvectors := alignEigenvectors ev.2
    let totalVariance := eigenvalues.sum
    let explainedVariance :=
      if totalVariance > 1 / 10 ^ 12 then eigenvalues.map (fun v => v / totalVariance)
      else eigenvalues.map (fun _ => 0)
    let cumulativeVariance := runningSums explainedVariance
    let scores := centered.map (fun row => alignedEigenvectors.map (fun vec => dotIdx row vec))
    ⟨eigenvalues, alignedEigenvectors, explainedVariance, cumulativeVariance,
     scores, meanVector, tenors⟩

/-- One row of `performRollingPCA`'s output. -/
structure RollingPoint where
  date : String
  PC1 : ℚ
  PC2 : ℚ
  PC3 : ℚ
  deriving DecidableEq

/-- `performRollingPCA`: refit each sliding window `fullData.slice(i - windowSize, i)`
for `i = windowSize … fullData.length - 1`, returning `[]` when
`fullData.length < windowSize`. -/
def performRollingPCA (ops : NumOps) (fullData : List Observation)
    (tenors : List String) (windowSize : ℕ) : List RollingPoint :=
  let matrix := toMatrix fullData tenors
  if fullData.length < windowSize then []
  else
    (List.range' windowSize (fullData.length - windowSize)).map (fun i =>
      let windowMatrix := (matrix.drop (i - windowSize)).take windowSize
      let meanVector := computeMeanVector windowMatrix
      let centered := centerData windowMatrix meanVector
      let cov := computeCovarianceMatrix centered
      let eigenvalues := (jacobiEigen ops cov 100 (1 / 10 ^ 8)).1
      let totalVariance := eigenvalues.sum
      let explained :=
        if totalVariance > 1 / 10 ^ 12 then eigenvalues.map (fun v => v / totalVariance * 100)
        else eigenvalues.map (fun _ => 0)
      ⟨(fullData.getD i ⟨"", []⟩).date,
       explained.getD 0 0, explained.getD 1 0, explained.getD 2 0⟩)

/-! ## The backtest module (`runPCABacktest`) -/

/-- The kind of a `Trade` record. -/
inductive TradeType where
  | buy
  | sell
  | close
  deriving DecidableEq

/-- An immutable trade record; optional fields are only set on CLOSE. -/
structure Trade where
  date : String
  entryDate : String
  exitDate : Option String
  tenor : String
  type : TradeType
  entryYield : ℚ
  exitYield : Option ℚ
  pricePnL : Option ℚ
  carryPnL : Option ℚ
  totalPnL : Option ℚ
  daysHeld : Option ℕ
  deriving DecidableEq

/-- Per-tenor open position state. -/
structure Position where
  entryYield : ℚ
  entryDateIndex : ℕ
  entryDate : String
  direction : ℚ
  accumulatedCarry : ℚ
  lastYield : ℚ
  deriving DecidableEq

/-- `DURATION_MAP` from the source. -/
def durationList : List (String × ℚ) :=
  [("1M", 2/25), ("3M", 1/4), ("6M", 1/2),
   ("1Y", 49/50), ("2Y", 39/20), ("3Y", 57/20),
   ("5Y", 91/20), ("7Y", 32/5), ("10Y", 89/10),
   ("20Y", 33/2), ("30Y", 39/2)]

/-- `CONVEXITY_MAP` from the source. -/
def convexityList : List (String × ℚ) :=
  [("1M", 0), ("3M", 0), ("6M", 0),
   ("1Y", 1/50), ("2Y", 1/20), ("3Y", 3/25),
   ("5Y", 7/20), ("7Y", 13/20), ("10Y", 11/10),
   ("20Y", 19/5), ("30Y", 29/5)]

/-- `DURATION_MAP[tenor] || 5` (every stored duration is nonzero, so the
JS `||` default only fires on a missing key). -/
def durationOf (tenor : String) : ℚ := (durationList.lookup tenor).getD 5

/-- `CONVEXITY_MAP[tenor] || 0` (stored zeros and missing keys both give 0). -/
def convexityOf (tenor : String) : ℚ := (convexityList.lookup tenor).getD 0

/-- The price-return formula used both for the daily mark-to-market and for
the CLOSE-time recomputation, in basis points:
`((-duration * dY/100) + 0.5 * convexity * (dY/100)^2) * 10000 * direction`,
where `dY` is the yield change in percent. -/
def priceBps (dur conv dir dY : ℚ) : ℚ :=
  (-1 * dur * (dY / 100) + 1/2 * conv * (dY / 100) ^ 2) * 10000 * dir

/-- The daily carry accrual in basis points:
`(lastYield / 100) / 360 * 10000 * direction`. -/
def carryBps (lastYield dir : ℚ) : ℚ := lastYield / 100 / 360 * 10000 * dir

/-- Mark one open position to market against today's observation, returning
the updated position and the day's price-plus-carry P&L contribution. -/
def markPosition (today : Observation) (tenor : String) (pos : Position) :
    Position × ℚ :=
  let currentYield := readNum today tenor
  let yieldChange := currentYield - pos.lastYield
  let dailyPricePnL := priceBps (durationOf tenor) (convexityOf tenor) pos.direction yieldChange
  let dailyCarry := carryBps pos.lastYield pos.direction
  (⟨pos.entryYield, pos.entryDateIndex, pos.entryDate, pos.direction,
    pos.accumulatedCarry + dailyCarry, currentYield⟩,
   dailyPricePnL + dailyCarry)

/-- The z-score computed per tenor each simulated day: residual of today's
yield against the 3-component model implied by `pca`, divided by the standard
deviation obtained from the sum of squared in-window residuals divided by
`windowSize`; exactly 0 when that standard deviation is 0. -/
def zScoreOf (ops : NumOps) (pca : PCAResult) (windowData : List Observation)
    (today : Observation) (tenors : List String) (windowSize : ℕ) (tIdx : ℕ) : ℚ :=
  let tenor := tenors.getD tIdx ("")
  let actualYield := readNum today tenor
  let centeredRow := (List.range tenors.length).map
    (fun idx => readNum today (tenors.getD idx ("")) - pca.meanVector.getD idx 0)
  let modelYield := pca.meanVector.getD tIdx 0 +
    ((List.range 3).map (fun k =>
      dotIdx centeredRow (pca.eigenvectors.getD k []) *
        (pca.eigenvectors.getD k []).getD tIdx 0)).sum
  let residual := actualYield - modelYield
  let sumSqRes := ((List.range windowData.length).map (fun w =>
    let wScores := pca.scores.getD w []
    let wModel := pca.meanVector.getD tIdx 0 +
      ((List.range 3).map (fun k =>
        wScores.getD k 0 * (pca.eigenvectors.getD k []).getD tIdx 0)).sum
    let wRes := readNum (windowData.getD w ⟨"", []⟩) tenor - wModel
    wRes * wRes)).sum
  let stdDev := ops.sqrt (sumSqRes / (windowSize : ℚ))
  if stdDev = 0 then 0 else residual / stdDev

/-- The per-tenor entry/exit state machine of step 3 of the day loop:
given the tenor's current position slot and z-score, produce the new slot
and the trades emitted (at most one). -/
def tradeStep (existing : Option Position) (zScore zScoreThreshold actualYield : ℚ)
    (today : String) (i : ℕ) (tenor : String) : Option Position × List Trade :=
  match existing with
  | none =>
    if zScore > zScoreThreshold then
      (some ⟨actualYield, i, today, 1, 0, actualYield⟩,
       [⟨today, today, none, tenor, .buy, actualYield, none, none, none, none, none⟩])
    else if zScore < -zScoreThreshold then
      (some ⟨actualYield, i, today, -1, 0, actualYield⟩,
       [⟨today, today, none, tenor, .sell, actualYield, none, none, none, none, none⟩])
    else (none, [])
  | some pos =>
    if (pos.direction = 1 ∧ zScore < 0) ∨ (¬ pos.direction = 1 ∧ zScore > 0) then
      let totalYieldChange := actualYield - pos.entryYield
      let totalPricePnL :=
        priceBps (durationOf tenor) (convexityOf tenor) pos.direction totalYieldChange
      let totalCarryPnL := pos.accumulatedCarry
      (none,
       [⟨today, pos.entryDate, some today, tenor, .close, pos.entryYield,
         some actualYield, some totalPricePnL, some totalCarryPnL,
         some (totalPricePnL + totalCarryPnL), some (i - pos.entryDateIndex)⟩])
    else (some pos, [])

/-- Update of the `activePositions` map: insertion-ordered set-or-append on
open, delete on close (matching JS `Map.set` / `Map.delete`). -/
def updatePositions (ps : List (String × Position)) (tenor : String) :
    Option Position → List (String × Position)
  | none => ps.filter (fun tp => ¬ tp.1 = tenor)
  | some pos =>
    if (ps.lookup tenor).isSome then
      ps.map (fun tp => if tp.1 = tenor then (tp.1, pos) else tp)
    else ps ++ [(tenor, pos)]

/-- The mutable state threaded through the day loop. -/
structure DayState where
  positions : List (String × Position)
  trades : List Trade
  equityCurve : List ℚ
  dates : List String
  deriving DecidableEq

/-- One simulated day `i`: mark-to-market every open position, extend the
equity curve and date list, refit PCA on the trailing window
`data.slice(i - windowSize, i)`, then run the trade logic tenor by tenor. -/
def dayStep (ops : NumOps) (data : List Observation) (tenors : List String)
    (windowSize : ℕ) (zScoreThreshold : ℚ) (st : DayState) (i : ℕ) : DayState :=
  let today := data.getD i ⟨"", []⟩
  let marked := st.positions.map (fun tp => (tp.1, markPosition today tp.1 tp.2))
  let positions1 := marked.map (fun tp => (tp.1, tp.2.1))
  let dailyTotalPnL := (marked.map (fun tp => tp.2.2)).sum
  let equity1 := st.equityCurve ++ [st.equityCurve.getLastD 0 + dailyTotalPnL]
  let dates1 := st.dates ++ [today.date]
  let windowData := (data.drop (i - windowSize)).take windowSize
  let pca := performPCA ops windowData tenors
  let res := (List.range tenors.length).foldl
    (fun (acc : List (String × Position) × List Trade) tIdx =>
      let tenor := tenors.getD tIdx ("")
      let actualYield := readNum today tenor
      let z := zScoreOf ops pca windowData today tenors windowSize tIdx
      let step := tradeStep (acc.1.lookup tenor) z zScoreThreshold actualYield
        today.date i tenor
      (updatePositions acc.1 tenor step.1, acc.2 ++ step.2))
    (positions1, st.trades)
  ⟨res.1, res.2, equity1, dates1⟩

/-- The whole day loop, starting from the baseline state
(`equityCurve = [0]`, `dates = [data[windowSize-1].date]`). -/
def runDays (ops : NumOps) (data : List Observation) (tenors : List String)
    (windowSize : ℕ) (zScoreThreshold : ℚ) : DayState :=
  (List.range' windowSize (data.length - windowSize)).foldl
    (dayStep ops data tenors windowSize zScoreThreshold)
    ⟨[], [], [0], [(data.getD (windowSize - 1) ⟨"", []⟩).date]⟩

/-- One step of the `maxDrawdown` fold: update the running peak (started at
`-Infinity`, modelled by `none`) and the running largest peak-minus-value. -/
def ddStep (acc : Option ℚ × ℚ) (val : ℚ) : Option ℚ × ℚ :=
  let peak := match acc.1 with
    | none => val
    | some pk => if val > pk then val else pk
  let dd := peak - val
  (some peak, if dd > acc.2 then dd else acc.2)

/-- The `maxDrawdown` fold of the source (`forEach` over the equity curve). -/
def maxDrawdown (equityCurve : List ℚ) : ℚ :=
  (equityCurve.foldl ddStep (none, 0)).2

/-- The summary statistics block of `BacktestResult`. -/
structure BTStats where
  totalReturn : ℚ
  sharpeRatio : ℚ
  maxDrawdown : ℚ
  winRate : ℚ
  totalTrades : ℕ
  deriving DecidableEq

/-- The summary-statistics computation at the end of `runPCABacktest`. -/
def computeStats (ops : NumOps) (equityCurve : List ℚ) (trades : List Trade) : BTStats :=
  let returns := (List.range equityCurve.length).map
    (fun i => if i = 0 then 0 else equityCurve.getD i 0 - equityCurve.getD (i - 1) 0)
  let avgReturn := returns.sum / (returns.length : ℚ)
  let stdReturn := ops.sqrt ((returns.map (fun b => (b - avgReturn) ^ 2)).sum
    / (returns.length : ℚ))
  let sharpe := if stdReturn = 0 then 0 else avgReturn / stdReturn * ops.sqrt 252
  let closedTrades := trades.filter (fun t => t.type = TradeType.close)
  let winningTrades := closedTrades.filter (fun t => t.totalPnL.getD 0 > 0)
  let winRate :=
    if closedTrades.length > 0 then
      (winningTrades.length : ℚ) / (closedTrades.length : ℚ)
    else 0
  ⟨equityCurve.getLastD 0, sharpe, maxDrawdown equityCurve, winRate, trades.length⟩

/-- The full `BacktestResult`. -/
structure BacktestResult where
  dates : List String
  equityCurve : List ℚ
  trades : List Trade
  stats : BTStats
  deriving DecidableEq

/-- `runPCABacktest`: explicit failure when `data.length < windowSize + 1`,
otherwise the day loop followed by the summary statistics. -/
def runPCABacktest (ops : NumOps) (data : List Observation) (tenors : List String)
    (windowSize : ℕ) (zScoreThreshold : ℚ) : Except String BacktestResult :=
  if data.length < windowSize + 1 then .error ("Not enough data for backtest")
  else
    let final := runDays ops data tenors windowSize zScoreThreshold
    .ok ⟨final.dates, final.equityCurve, final.trades,
         computeStats ops final.equityCurve final.trades⟩

/-- Decidable equality for backtest outcomes (used only to evaluate the
embedding on concrete inputs). -/
instance {e a : Type} [DecidableEq e] [DecidableEq a] : DecidableEq (Except e a)
  | .error x, .error y =>
    if h : x = y then .isTrue (by rw [h]) else .isFalse (by intro c; cases c; exact h rfl)
  | .error _, .ok _ => .isFalse (by intro h; cases h)
  | .ok _, .error _ => .isFalse (by intro h; cases h)
  | .ok x, .ok y =>
    if h : x = y then .isTrue (by rw [h]) else .isFalse (by intro c; cases c; exact h rfl)

/-- The trade list of a backtest outcome (`[]` for the failure case);
lets concrete statements avoid binders. -/
def tradesOf : Except String BacktestResult → List Trade
  | .ok r => r.trades
  | .error _ => []

/-- The equity curve of a backtest outcome (`[]` for the failure case). -/
def equityOf : Except String BacktestResult → List ℚ
  | .ok r => r.equityCurve
  | .error _ => []

/-! ## A concrete operation record

`ratSqrt` agrees with the real square root on perfect rational squares and
is 0 elsewhere; the trigonometric slots are never reached on the concrete
inputs below (their covariance matrices are diagonal, so the Jacobi sweep
stops before its first rotation). -/

/-- Fuel-bounded integer square-root bisection: maintains `lo ≤ sqrt n < hi`. -/
def isqrtGo (n : ℕ) : ℕ → ℕ → ℕ → ℕ
  | 0, lo, _ => lo
  | fuel + 1, lo, hi =>
    let mid := (lo + hi) / 2
    if mid = lo then lo
    else if mid * mid ≤ n then isqrtGo n fuel mid hi
    else isqrtGo n fuel lo mid

/-- Integer square root (floor). -/
def isqrt (n : ℕ) : ℕ := isqrtGo n n 0 (n + 1)

/-- Exact square root on perfect rational squares, 0 elsewhere. -/
def ratSqrt (q : ℚ) : ℚ :=
  let r := ((isqrt q.num.toNat : ℚ) / (isqrt q.den : ℚ))
  if r ^ 2 = q then r else 0

/-- The concrete operation record used for all concrete evaluations. -/
def ratOps : NumOps := ⟨fun _ _ => 0, fun _ => 0, fun _ => 0, ratSqrt⟩

/-! ## Concrete inputs

`bkData`/`bkTenors` is a 12-day, 4-tenor series engineered so that every
8-day fit window has an exactly diagonal covariance matrix (the three
auxiliary tenors follow mutually orthogonal period-4 patterns of strictly
decreasing amplitude, and the 30Y deviations are orthogonal to all of them in
every window), every reached square root is of a perfect rational square, and
the strategy opens a long 30Y position on day 8 and closes it on day 11 after
three marking days. -/

/-- Build one observation from a date and the four tenor values. -/
def mkObs (d : String) (a b c q : ℚ) : Observation :=
  ⟨d, [("2Y", .num a), ("5Y", .num b), ("10Y", .num c), ("30Y", .num q)]⟩

def bkTenors : List String := ["2Y", "5Y", "10Y", "30Y"]

def bkData : List Observation :=
  [mkObs ("D00") 14 13 12 7,
   mkObs ("D01") 6 13 8 6,
   mkObs ("D02") 14 7 8 5,
   mkObs ("D03") 6 7 12 7,
   mkObs ("D04") 14 13 12 3,
   mkObs ("D05") 6 13 8 4,
   mkObs ("D06") 14 7 8 5,
   mkObs ("D07") 6 7 12 3,
   mkObs ("D08") 14 13 12 7,
   mkObs ("D09") 6 13 8 6,
   mkObs ("D10") 14 7 8 5,
   mkObs ("D11") 6 7 12 4]

/-- A two-day, three-tenor series for the trivial-run witnesses
(window size 1: the single-row window has an all-zero covariance matrix). -/
def smData : List Observation :=
  [⟨"d0", [("1M", .num 4), ("3M", .num 5), ("6M", .num 6)]⟩,
   ⟨"d1", [("1M", .num 4), ("3M", .num 5), ("6M", .num 6)]⟩]

def smTenors : List String := ["1M", "3M", "6M"]

/-- The result of the trivial two-day run (no signals fire, so the curve
stays at 0 and no trade is emitted). -/
def smResult : BacktestResult := ⟨["d0", "d1"], [0, 0], [], ⟨0, 0, 0, 0, 0⟩⟩

/-- A single-observation series for the rolling-PCA counterexample. -/
def oneObsData : List Observation := [⟨"d0", [("1M", .num 4), ("3M", .num 5), ("6M", .num 6)]⟩]

/-! ## Specification-side definitions

These definitions follow the wording of the specification (not the source)
and are compared with the source-derived definitions in the theorems below. -/

/-- Day-over-day yield changes along a marking path starting at the entry
yield: the changes the daily mark-to-market step sees for one position. -/
def diffsFrom (entry : ℚ) : List ℚ → List ℚ
  | [] => []
  | y :: ys => (y - entry) :: diffsFrom y ys

/-- The accumulated daily mark-to-market price P&L of a position entered at
`entry` and marked at the successive yields `path` (each day's mark applies
the source's `priceBps` daily formula to that day's yield change). -/
def sumDailyPriceMarks (dur conv dir entry : ℚ) (path : List ℚ) : ℚ :=
  ((diffsFrom entry path).map (priceBps dur conv dir)).sum

/-- Centering a raw observation row against the fit's mean vector
(specification §4.3). -/
def specCentered (pca : PCAResult) (row : List ℚ) : List ℚ :=
  (List.range row.length).map (fun j => row.getD j 0 - pca.meanVector.getD j 0)

/-- Score of a (possibly out-of-sample) observation row on component `k`:
the projection of the freshly centered row onto eigenvector `k`
(specification §4.3: "not reusing a stored score"). -/
def specScore (pca : PCAResult) (row : List ℚ) (k : ℕ) : ℚ :=
  dotIdx (specCentered pca row) (pca.eigenvectors.getD k [])

/-- Model-implied yield for tenor index `t`:
`mean[t] + Σ_{k=0..2} score_k · eigenvector_k[t]`. -/
def specModelYield (pca : PCAResult) (row : List ℚ) (t : ℕ) : ℚ :=
  pca.meanVector.getD t 0 +
    ((List.range 3).map (fun k =>
      specScore pca row k * (pca.eigenvectors.getD k []).getD t 0)).sum

/-- Residual: actual minus model-implied yield. -/
def specResidual (pca : PCAResult) (row : List ℚ) (t : ℕ) : ℚ :=
  row.getD t 0 - specModelYield pca row t

/-- The numeric row a single observation contributes for the given tenors. -/
def rowOf (d : Observation) (tenors : List String) : List ℚ :=
  tenors.map (fun t => readNum d t)

/-- Population standard deviation of a list of residuals over a window of
size `n`: square root of the sum of squares divided by `n` (not `n - 1`). -/
def specPopStd (ops : NumOps) (l : List ℚ) (n : ℕ) : ℚ :=
  ops.sqrt ((l.map (fun r => r ^ 2)).sum / (n : ℚ))

/-- The z-score the specification describes: residual of today's row divided
by the population standard deviation of the window rows' residuals under the
same fitted model, and exactly 0 when that standard deviation is 0. -/
def specZScore (ops : NumOps) (pca : PCAResult) (windowData : List Observation)
    (today : Observation) (tenors : List String) (windowSize : ℕ) (tIdx : ℕ) : ℚ :=
  let residuals := windowData.map (fun d => specResidual pca (rowOf d tenors) tIdx)
  let sigma := specPopStd ops residuals windowSize
  if sigma = 0 then 0 else specResidual pca (rowOf today tenors) tIdx / sigma

/-- The flip conditions of the sign-alignment convention, as the
specification states them: component 0 flips when the sum of its loadings is
negative, component 1 when last-minus-first is negative, component 2 when the
middle loading is below the average of the first and last, and components
beyond the third never flip. -/
def specFlip (i : ℕ) (vec : List ℚ) : Prop :=
  if i = 0 then vec.sum < 0
  else if i = 1 then vec.getLastD 0 - vec.headD 0 < 0
  else if i = 2 then vec.getD (vec.length / 2) 0 < (vec.headD 0 + vec.getLastD 0) / 2
  else False

instance (i : ℕ) (vec : List ℚ) : Decidable (specFlip i vec) := by
  unfold specFlip; infer_instance

/-- All peak-to-trough drops `ec[i] - ec[j]` over pairs `i ≤ j`. -/
def drops : List ℚ → List ℚ
  | [] => []
  | v :: rest => (v :: rest).map (fun w => v - w) ++ drops rest

/-- Largest of a list of rationals and 0. -/
def listMax0 (l : List ℚ) : ℚ := l.foldr (fun a b => max a b) 0

/-- The largest peak-to-trough drop of an equity curve (0 for an empty or
never-falling curve; the drop of any pair `i ≤ j` with `ec[i] ≥ ec[j]` is
among the candidates, including the zero drops `i = j`). -/
def specMaxDrawdown (l : List ℚ) : ℚ := listMax0 (drops l)

/-! ## Helper lemmas -/

theorem getD_map_lt {α β : Type} (f : α → β) (l : List α) (k : ℕ)
    (hk : k < l.length) (dα : α) (dβ : β) :
    (l.map f).getD k dβ = f (l.getD k dα) := by
  induction l generalizing k with
  | nil => simp at hk
  | cons a as ih =>
    cases k with
    | zero => rfl
    | succ k => exact ih k (by simpa using hk)

theorem getD_range_map {α : Type} (g : ℕ → α) (n k : ℕ) (hk : k < n) (d : α) :
    ((List.range n).map g).getD k d = g k := by
  rw [getD_map_lt g (List.range n) k (by simpa using hk) 0 d]
  congr 1
  induction n generalizing k with
  | zero => omega
  | succ n ih =>
    rcases Nat.lt_or_ge k n with h | h
    · rw [List.range_succ, List.getD_append _ _ _ _ (by simpa using h)]
      exact ih k h
    · have hk' : k = n := by omega
      subst hk'
      rw [List.range_succ]
      rw [List.getD_eq_getElem?_getD]
      simp

theorem map_eq_range_map {α β : Type} (g : α → β) (l : List α) (d : α) :
    l.map g = (List.range l.length).map (fun i => g (l.getD i d)) := by
  induction l with
  | nil => rfl
  | cons a as ih =>
    simp only [List.map_cons, List.length_cons, List.range_succ_eq_map,
      List.map_map]
    congr 1

/-! ## Claim C1 -/

theorem diffsFrom_sum (p : List ℚ) : ∀ e : ℚ, (diffsFrom e p).sum = p.getLastD e - e := by
  induction p with
  | nil => intro e; simp [diffsFrom]
  | cons y ys ih =>
    intro e
    simp only [diffsFrom, List.sum_cons, List.getLastD_cons, ih y]
    ring

theorem priceBps_eq (dur conv dir d : ℚ) :
    priceBps dur conv dir d = dir * (-100 * dur * d + conv / 2 * d ^ 2) := by
  unfold priceBps; ring

theorem priceBps_map_sum (dur conv dir : ℚ) (l : List ℚ) :
    (l.map (priceBps dur conv dir)).sum =
      dir * (-100 * dur * l.sum + conv / 2 * (l.map (fun d => d ^ 2)).sum) := by
  induction l with
  | nil => simp
  | cons d ds ih =>
    simp only [List.map_cons, List.sum_cons, ih, priceBps_eq]
    ring

/-- Claim C1, corrected.  The CLOSE-time total price P&L (the source's
entry-to-exit `priceBps` recomputation) equals the accumulated daily price
marks plus an exact convexity correction
`direction · convexity/2 · ((Δy)² − Σᵢ dyᵢ²)`; the duration (linear) parts
coincide exactly by telescoping, so the two sides agree exactly whenever the
convexity coefficient is zero, but in general they differ by the correction
term, which is not bounded by any solver tolerance. -/
theorem claim_C1 (dur conv dir entry : ℚ) (path : List ℚ) :
    priceBps dur conv dir (path.getLastD entry - entry) =
      sumDailyPriceMarks dur conv dir entry path +
        dir * (conv / 2) *
          ((path.getLastD entry - entry) ^ 2 -
            ((diffsFrom entry path).map (fun d => d ^ 2)).sum) := by
  unfold sumDailyPriceMarks
  rw [priceBps_map_sum, ← diffsFrom_sum path entry, priceBps_eq]
  ring

/-- Claim C1, counterexample.  On the 12-day series `bkData` the backtest
emits a single BUY/CLOSE pair on tenor 30Y (entry day 8 at yield 7, exit day
11 at yield 4, marked at yields 6, 5, 4 on the three intervening days); the
trade's recorded price P&L is 5876.1 bps while the accumulated daily price
marks total 5858.7 bps — a gap of 17.4 bps, far beyond solver tolerance. -/
theorem claim_C1_counterexample :
    tradesOf (runPCABacktest ratOps bkData bkTenors 8 1) =
      [⟨"D08", "D08", none, "30Y", .buy, 7, none, none, none, none, none⟩,
       ⟨"D11", "D08", some ("D11"), "30Y", .close, 7, some 4, some (58761/10),
        some 5, some (58811/10), some 3⟩] ∧
    sumDailyPriceMarks (39/2) (29/5) 1 7 [6, 5, 4] = 58587/10 ∧
    ¬ |(58761 : ℚ)/10 - 58587/10| ≤ 1/100 := by
  refine ⟨by decide!, by decide!, by decide!⟩

/-! ## Claim C3 -/

/-- Claim C3, corrected.  `performRollingPCA` returns the empty sequence
exactly when `len(observations) ≤ windowSize` (not `<`): the window loop runs
for `i = windowSize … len - 1`, so `windowSize = len` produces zero results
rather than one degenerate static fit, and in general the output has
`len - windowSize` entries. -/
theorem claim_C3 (ops : NumOps) (fullData : List Observation)
    (tenors : List String) (windowSize : ℕ) :
    (performRollingPCA ops fullData tenors windowSize = [] ↔
      fullData.length ≤ windowSize) ∧
    (performRollingPCA ops fullData tenors windowSize).length =
      fullData.length - windowSize := by
  unfold performRollingPCA
  by_cases h : fullData.length < windowSize
  · simp only [if_pos h]
    constructor
    · simp only [true_iff]
      omega
    · simp only [List.length_nil]
      omega
  · simp only [if_neg h]
    constructor
    · rw [List.map_eq_nil_iff]
      rw [List.range'_eq_nil]
      omega
    · rw [List.length_map, List.length_range']

/-- Claim C3, counterexample.  A one-observation series with
`windowSize = 1` satisfies `windowSize = len(observations)`, yet the rolling
fit is the empty sequence, not a single static-fit result; in particular
emptiness is not equivalent to `len(observations) < windowSize`. -/
theorem claim_C3_counterexample :
    performRollingPCA ratOps oneObsData smTenors 1 = [] ∧
    ¬ oneObsData.length < 1 := by
  refine ⟨by decide!, by decide!⟩

/-! ## Claim C7 -/

theorem sum_map_neg (l : List ℚ) : (l.map (fun v => -v)).sum = -l.sum := by
  induction l with
  | nil => simp
  | cons a as ih => simp [ih]; ring

theorem getLastD_map_neg (l : List ℚ) : ∀ d : ℚ,
    (l.map (fun v => -v)).getLastD (-d) = -(l.getLastD d) := by
  induction l with
  | nil => intro d; rfl
  | cons a as ih =>
    intro d
    simp only [List.map_cons, List.getLastD_cons]
    exact ih a

theorem headD_map_neg (l : List ℚ) : (l.map (fun v => -v)).headD 0 = -(l.headD 0) := by
  cases l with
  | nil => simp
  | cons a as => rfl

theorem getD_map_neg (l : List ℚ) : ∀ k : ℕ, (l.map (fun v => -v)).getD k 0 = -(l.getD k 0) := by
  induction l with
  | nil => intro k; simp
  | cons a as ih =>
    intro k
    cases k with
    | zero => rfl
    | succ k => exact ih k

theorem neg_one_ne_one : ¬ (-1 : ℚ) = 1 := by norm_num

/-- Flipping a component makes its flip condition false. -/
theorem specFlip_neg (i : ℕ) (vec : List ℚ) (h : specFlip i vec) :
    ¬ specFlip i (vec.map (fun v => -v)) := by
  have hl : (vec.map (fun v => -v)).getLastD 0 = -(vec.getLastD 0) := by
    have := getLastD_map_neg vec 0
    rwa [neg_zero] at this
  unfold specFlip at h ⊢
  by_cases h0 : i = 0
  · rw [if_pos h0] at h ⊢
    rw [sum_map_neg]
    linarith
  · by_cases h1 : i = 1
    · rw [if_neg h0, if_pos h1] at h ⊢
      rw [hl, headD_map_neg]
      linarith
    · by_cases h2 : i = 2
      · rw [if_neg h0, if_neg h1, if_pos h2] at h ⊢
        rw [hl, headD_map_neg, List.length_map, getD_map_neg]
        linarith
      · rw [if_neg h0, if_neg h1, if_neg h2] at h
        exact h.elim

/-- Pointwise form of one alignment step: the source's sign computation
selects the flip exactly when the specification's flip condition holds. -/
theorem align_entry_eq (i : ℕ) (vec : List ℚ) :
    (if (if i = 0 then
          if vec.sum < 0 then (-1 : ℚ) else 1
        else if i = 1 then
          if (if vec.length > 0 then vec.getLastD 0 - vec.headD 0 else 0) < 0 then -1 else 1
        else if i = 2 then
          if vec.getD (vec.length / 2) 0 <
              (if vec.length > 0 then (vec.headD 0 + vec.getLastD 0) / 2 else 0)
            then -1 else 1
        else 1) = 1
      then vec else vec.map (fun v => -v)) =
      if specFlip i vec then vec.map (fun v => -v) else vec := by
  cases vec with
  | nil =>
    unfold specFlip
    split_ifs <;> rfl
  | cons a as =>
    unfold specFlip
    split_ifs <;> first | rfl | (exfalso; norm_num at *)

/-- The alignment map in specification form. -/
theorem align_eq_spec (vs : List (List ℚ)) :
    alignEigenvectors vs = (List.range vs.length).map (fun i =>
      if specFlip i (vs.getD i []) then (vs.getD i []).map (fun v => -v)
      else vs.getD i []) := by
  unfold alignEigenvectors
  exact List.map_congr_left (fun i _ => align_entry_eq i (vs.getD i []))

/-- Claim C7.  Sign alignment is deterministic (it is a pure function of its
input) and idempotent, and it equals the flip rule the specification states:
component 0 flips exactly when the sum of its loadings is negative,
component 1 exactly when last-minus-first loading is negative, component 2
exactly when the middle loading is below the average of the first and last
loadings, and every later component is returned unchanged. -/
theorem claim_C7 (vs : List (List ℚ)) :
    alignEigenvectors (alignEigenvectors vs) = alignEigenvectors vs ∧
    alignEigenvectors vs = (List.range vs.length).map (fun i =>
      if specFlip i (vs.getD i []) then (vs.getD i []).map (fun v => -v)
      else vs.getD i []) := by
  refine ⟨?_, align_eq_spec vs⟩
  have hlen : (alignEigenvectors vs).length = vs.length := by
    rw [align_eq_spec]
    simp
  rw [align_eq_spec (alignEigenvectors vs), hlen]
  rw [align_eq_spec vs]
  apply List.map_congr_left
  intro i hi
  have hi' : i < vs.length := by simpa using hi
  have hentry : ((List.range vs.length).map (fun i =>
      if specFlip i (vs.getD i []) then (vs.getD i []).map (fun v => -v)
      else vs.getD i [])).getD i [] =
      (if specFlip i (vs.getD i []) then (vs.getD i []).map (fun v => -v)
       else vs.getD i []) := getD_range_map _ _ _ hi' _
  rw [hentry]
  by_cases hf : specFlip i (vs.getD i [])
  · rw [if_pos hf, if_neg (specFlip_neg i (vs.getD i []) hf)]
  · rw [if_neg hf, if_neg hf]

/-! ## Claim C5 -/

/-- Claim C5.  For a positive window size, a full numeric tenor grid and at
least three tenors, `runPCABacktest` raises its explicit failure exactly when
the precondition `windowSize < len(observations)` is violated, and otherwise
returns a `BacktestResult`. -/
theorem claim_C5 (ops : NumOps) (data : List Observation) (tenors : List String)
    (windowSize : ℕ) (zScoreThreshold : ℚ)
    (hw : 1 ≤ windowSize) (ht : 3 ≤ tenors.length)
    (hnum : ∀ d ∈ data, NumericObs d tenors) :
    (runPCABacktest ops data tenors windowSize zScoreThreshold =
        .error ("Not enough data for backtest") ↔ data.length ≤ windowSize) ∧
    (windowSize < data.length →
      ∃ r, runPCABacktest ops data tenors windowSize zScoreThreshold = .ok r) := by
  unfold runPCABacktest
  by_cases h : data.length < windowSize + 1
  · rw [if_pos h]
    refine ⟨⟨fun _ => by omega, fun _ => rfl⟩, fun hlt => by omega⟩
  · rw [if_neg h]
    refine ⟨⟨fun heq => by exact absurd heq (by simp), fun hle => by omega⟩,
      fun _ => ⟨_, rfl⟩⟩

/-- Claim C5, witness: on the two-day, three-tenor series with window size 1
the guard equivalence holds concretely. -/
theorem claim_C5_witness :
    runPCABacktest ratOps smData smTenors 1 1 =
        .error ("Not enough data for backtest") ↔ smData.length ≤ 1 :=
  (claim_C5 ratOps smData smTenors 1 1 (by decide!) (by decide!) (by decide!)).1

/-! ## Claim C2 -/

/-- Claim C2.  The day-loop trade logic: with no open position a single BUY
is emitted exactly when the z-score exceeds `+threshold` (and the new slot is
a long with direction 1), a single SELL exactly when it is below
`-threshold` (new slot a short with direction -1), and nothing otherwise;
with an open position a single CLOSE is emitted exactly when a long sees
`z < 0` or a short sees `z > 0` (releasing the slot), and the slot is kept
unchanged otherwise.  The trades of a successful run are exactly the trades
accumulated by the day loop, so positions still open at the end of the
series generate no further record. -/
theorem claim_C2 (p : Position) (zScore zThr actualYield : ℚ)
    (today : String) (i : ℕ) (tenor : String)
    (ops : NumOps) (data : List Observation) (tenors : List String)
    (windowSize : ℕ) (r : BacktestResult) (hthr : 0 < zThr) :
    ((tradeStep none zScore zThr actualYield today i tenor).2.map (fun t => t.type)
        = [.buy] ↔ zScore > zThr) ∧
    ((tradeStep none zScore zThr actualYield today i tenor).2.map (fun t => t.type)
        = [.sell] ↔ zScore < -zThr) ∧
    ((tradeStep none zScore zThr actualYield today i tenor).2.map (fun t => t.type)
        = [] ↔ (¬ zScore > zThr ∧ ¬ zScore < -zThr)) ∧
    ((tradeStep (some p) zScore zThr actualYield today i tenor).2.map (fun t => t.type)
        = [.close] ↔
      ((p.direction = 1 ∧ zScore < 0) ∨ (¬ p.direction = 1 ∧ zScore > 0))) ∧
    ((tradeStep (some p) zScore zThr actualYield today i tenor).2.map (fun t => t.type)
        = [] ↔
      ¬ ((p.direction = 1 ∧ zScore < 0) ∨ (¬ p.direction = 1 ∧ zScore > 0))) ∧
    (zScore > zThr →
      (tradeStep none zScore zThr actualYield today i tenor).1 =
        some ⟨actualYield, i, today, 1, 0, actualYield⟩) ∧
    (zScore < -zThr →
      (tradeStep none zScore zThr actualYield today i tenor).1 =
        some ⟨actualYield, i, today, -1, 0, actualYield⟩) ∧
    (((p.direction = 1 ∧ zScore < 0) ∨ (¬ p.direction = 1 ∧ zScore > 0)) →
      (tradeStep (some p) zScore zThr actualYield today i tenor).1 = none) ∧
    (¬ ((p.direction = 1 ∧ zScore < 0) ∨ (¬ p.direction = 1 ∧ zScore > 0)) →
      (tradeStep (some p) zScore zThr actualYield today i tenor).1 = some p) ∧
    (runPCABacktest ops data tenors windowSize zThr = .ok r →
      r.trades = (runDays ops data tenors windowSize zThr).trades) := by
  refine ⟨?_, ?_, ?_, ?_, ?_, ?_, ?_, ?_, ?_, ?_⟩
  · unfold tradeStep
    split_ifs <;> simp_all
  · unfold tradeStep
    split_ifs with h1 h2
    · simp_all
      linarith
    · simp_all
    · simp_all
  · unfold tradeStep
    split_ifs <;> simp_all
  · unfold tradeStep
    by_cases hc : (p.direction = 1 ∧ zScore < 0) ∨ (¬ p.direction = 1 ∧ zScore > 0)
    · simp [hc]
    · simp [hc]
  · unfold tradeStep
    by_cases hc : (p.direction = 1 ∧ zScore < 0) ∨ (¬ p.direction = 1 ∧ zScore > 0)
    · simp [hc]
    · simp [hc]
  · intro h
    unfold tradeStep
    rw [if_pos h]
  · intro h
    unfold tradeStep
    rw [if_neg (by linarith), if_pos h]
  · intro h
    simp only [tradeStep]
    rw [if_pos h]
  · intro h
    simp only [tradeStep]
    rw [if_neg h]
  · intro h
    unfold runPCABacktest at h
    split at h
    · exact absurd h (by simp)
    · cases h
      rfl

/-- Claim C2, witness: on the trivial two-day run the trades are exactly the
day-loop trades, and at a concrete no-position step with z-score 2 and
threshold 1 the characterisation instantiates. -/
theorem claim_C2_witness :
    ((tradeStep none 2 1 7 ("D08") 8 ("30Y")).2.map (fun t => t.type)
        = [.buy] ↔ (2 : ℚ) > 1) ∧
    smResult.trades = (runDays ratOps smData smTenors 1 1).trades :=
  ⟨(claim_C2 ⟨7, 8, "D08", 1, 0, 7⟩ 2 1 7 ("D08") 8 ("30Y") ratOps smData smTenors 1
      smResult (by norm_num)).1,
   (claim_C2 ⟨7, 8, "D08", 1, 0, 7⟩ 2 1 7 ("D08") 8 ("30Y") ratOps smData smTenors 1
      smResult (by norm_num)).2.2.2.2.2.2.2.2.2
      (by decide!)⟩

/-! ## Claim C10 -/

theorem head?_append_ne {α : Type} (l : List α) (h : ¬ l = []) (x : α) :
    (l ++ [x]).head? = l.head? := by
  cases l with
  | nil => exact absurd rfl h
  | cons a as => rfl

/-- Shape invariant of the day loop: every day appends exactly one entry to
the equity curve and one to the date list, and preserves their heads. -/
theorem foldDays_shape (ops : NumOps) (data : List Observation)
    (tenors : List String) (w : ℕ) (thr : ℚ) (days : List ℕ) :
    ∀ st : DayState, ¬ st.equityCurve = [] → ¬ st.dates = [] →
      (days.foldl (dayStep ops data tenors w thr) st).equityCurve.length
          = st.equityCurve.length + days.length ∧
      (days.foldl (dayStep ops data tenors w thr) st).dates.length
          = st.dates.length + days.length ∧
      (days.foldl (dayStep ops data tenors w thr) st).equityCurve.head?
          = st.equityCurve.head? ∧
      (days.foldl (dayStep ops data tenors w thr) st).dates.head?
          = st.dates.head? := by
  induction days with
  | nil =>
    intro st _ _
    exact ⟨rfl, rfl, rfl, rfl⟩
  | cons d ds ih =>
    intro st hec hdt
    have hstep : (dayStep ops data tenors w thr st d).equityCurve
        = st.equityCurve ++ [st.equityCurve.getLastD 0 +
            ((st.positions.map (fun tp =>
              (tp.1, markPosition (data.getD d ⟨"", []⟩) tp.1 tp.2))).map
                (fun tp => tp.2.2)).sum] := rfl
    have hstepd : (dayStep ops data tenors w thr st d).dates
        = st.dates ++ [(data.getD d ⟨"", []⟩).date] := rfl
    have h1 := ih (dayStep ops data tenors w thr st d)
      (by rw [hstep]; simp) (by rw [hstepd]; simp)
    rw [List.foldl_cons]
    refine ⟨?_, ?_, ?_, ?_⟩
    · rw [h1.1, hstep]
      simp only [List.length_append, List.length_cons, List.length_nil]
      omega
    · rw [h1.2.1, hstepd]
      simp only [List.length_append, List.length_cons, List.length_nil]
      omega
    · rw [h1.2.2.1, hstep, head?_append_ne _ hec]
    · rw [h1.2.2.2, hstepd, head?_append_ne _ hdt]

/-- Claim C10.  A successful run on `n ≥ windowSize + 1` observations
returns date and equity sequences of equal length `n - windowSize + 1`, with
the baseline entries `equityCurve[0] = 0` and
`dates[0] = data[windowSize - 1].date` followed by one entry per simulated
day. -/
theorem claim_C10 (ops : NumOps) (data : List Observation) (tenors : List String)
    (w : ℕ) (thr : ℚ) (r : BacktestResult) (hw : 1 ≤ w)
    (hn : w + 1 ≤ data.length)
    (hok : runPCABacktest ops data tenors w thr = .ok r) :
    r.dates.length = data.length - w + 1 ∧
    r.equityCurve.length = data.length - w + 1 ∧
    r.equityCurve.head? = some 0 ∧
    r.dates.head? = some (data.getD (w - 1) ⟨"", []⟩).date := by
  unfold runPCABacktest at hok
  rw [if_neg (by omega)] at hok
  cases hok
  have h := foldDays_shape ops data tenors w thr
    (List.range' w (data.length - w))
    ⟨[], [], [0], [(data.getD (w - 1) ⟨"", []⟩).date]⟩ (by simp) (by simp)
  have hr : (runDays ops data tenors w thr) =
      (List.range' w (data.length - w)).foldl (dayStep ops data tenors w thr)
        ⟨[], [], [0], [(data.getD (w - 1) ⟨"", []⟩).date]⟩ := rfl
  refine ⟨?_, ?_, ?_, ?_⟩
  · show (runDays ops data tenors w thr).dates.length = data.length - w + 1
    rw [hr, h.2.1]
    simp only [List.length_range', List.length_cons, List.length_nil]
    omega
  · show (runDays ops data tenors w thr).equityCurve.length = data.length - w + 1
    rw [hr, h.1]
    simp only [List.length_range', List.length_cons, List.length_nil]
    omega
  · show (runDays ops data tenors w thr).equityCurve.head? = some 0
    rw [hr, h.2.2.1]
    rfl
  · show (runDays ops data tenors w thr).dates.head?
        = some (data.getD (w - 1) ⟨"", []⟩).date
    rw [hr, h.2.2.2]
    rfl

/-- Claim C10, witness: the trivial two-day run instantiates the shape
facts concretely. -/
theorem claim_C10_witness :
    smResult.dates.length = smData.length - 1 + 1 ∧
    smResult.equityCurve.length = smData.length - 1 + 1 ∧
    smResult.equityCurve.head? = some 0 ∧
    smResult.dates.head? = some (smData.getD (1 - 1) ⟨"", []⟩).date :=
  claim_C10 ratOps smData smTenors 1 1 smResult (by decide!) (by decide!)
    (by decide!)

/-! ## Claim C9 -/

/-- Running drawdown candidates of the fold, given the running peak. -/
def ddList (pk : ℚ) : List ℚ → List ℚ
  | [] => []
  | v :: r => (max pk v - v) :: ddList (max pk v) r

theorem if_gt_eq_max (pk v : ℚ) : (if v > pk then v else pk) = max pk v := by
  rcases le_or_lt v pk with h | h
  · rw [if_neg (not_lt.2 h), max_eq_left h]
  · rw [if_pos h, max_eq_right h.le]

theorem ddStep_some (pk mdd v : ℚ) :
    ddStep (some pk, mdd) v = (some (max pk v), max mdd (max pk v - v)) := by
  show (some (if v > pk then v else pk),
    if (if v > pk then v else pk) - v > mdd then (if v > pk then v else pk) - v else mdd)
      = (some (max pk v), max mdd (max pk v - v))
  rw [if_gt_eq_max, if_gt_eq_max]

theorem ddStep_none (v : ℚ) : ddStep (none, 0) v = (some v, 0) := by
  show (some v, if v - v > 0 then v - v else 0) = (some v, 0)
  rw [sub_self, if_neg (lt_irrefl 0)]

theorem maxDrawdownAux_eq (l : List ℚ) : ∀ pk mdd : ℚ,
    (l.foldl ddStep (some pk, mdd)).2
      = (ddList pk l).foldl (fun a b => max a b) mdd := by
  induction l with
  | nil => intro pk mdd; rfl
  | cons v r ih =>
    intro pk mdd
    rw [List.foldl_cons, ddStep_some, ih]
    rfl

theorem listMax0_cons (a : ℚ) (l : List ℚ) : listMax0 (a :: l) = max a (listMax0 l) := rfl

theorem listMax0_nonneg (l : List ℚ) : 0 ≤ listMax0 l := by
  induction l with
  | nil => exact le_refl 0
  | cons a as ih => exact le_trans ih (le_max_right a (listMax0 as))

theorem foldl_max_eq (l : List ℚ) : ∀ m : ℚ, 0 ≤ m →
    l.foldl (fun a b => max a b) m = max m (listMax0 l) := by
  induction l with
  | nil => intro m hm; rw [listMax0]; exact (max_eq_left hm).symm
  | cons a as ih =>
    intro m hm
    rw [List.foldl_cons, ih (max m a) (le_trans hm (le_max_left m a)),
      listMax0_cons, max_assoc]

theorem listMax0_append (l1 l2 : List ℚ) :
    listMax0 (l1 ++ l2) = max (listMax0 l1) (listMax0 l2) := by
  induction l1 with
  | nil =>
    show listMax0 l2 = max (listMax0 []) (listMax0 l2)
    exact (max_eq_right (listMax0_nonneg l2)).symm
  | cons a as ih =>
    show listMax0 (a :: (as ++ l2)) = max (listMax0 (a :: as)) (listMax0 l2)
    rw [listMax0_cons, ih, listMax0_cons, max_assoc]

theorem listMax0_map_max (f g : ℚ → ℚ) (l : List ℚ) :
    listMax0 (l.map (fun w => max (f w) (g w)))
      = max (listMax0 (l.map f)) (listMax0 (l.map g)) := by
  induction l with
  | nil => simp [listMax0]
  | cons a as ih =>
    simp only [List.map_cons, listMax0_cons, ih]
    rw [max_max_max_comm]

theorem ddList_max0 (r : List ℚ) : ∀ pk : ℚ,
    listMax0 (ddList pk r) = listMax0 (r.map (fun w => pk - w) ++ drops r) := by
  induction r with
  | nil => intro pk; rfl
  | cons v r ih =>
    intro pk
    have hmap : r.map (fun w => max pk v - w)
        = r.map (fun w => max (pk - w) (v - w)) :=
      List.map_congr_left (fun w _ => (max_sub_sub_right pk v w).symm)
    have hL : listMax0 (ddList pk (v :: r))
        = max (max pk v - v) (max (listMax0 (r.map (fun w => pk - w)))
            (max (listMax0 (r.map (fun w => v - w))) (listMax0 (drops r)))) := by
      rw [ddList, listMax0_cons, ih (max pk v), listMax0_append, hmap,
        listMax0_map_max, max_assoc]
    have hR : listMax0 ((v :: r).map (fun w => pk - w) ++ drops (v :: r))
        = max (pk - v) (max (listMax0 (r.map (fun w => pk - w)))
            (max (v - v) (max (listMax0 (r.map (fun w => v - w)))
              (listMax0 (drops r))))) := by
      rw [show drops (v :: r) = ((v :: r).map (fun w => v - w)) ++ drops r from rfl]
      rw [List.map_cons, List.map_cons, List.cons_append, List.cons_append,
        listMax0_cons, listMax0_append, listMax0_cons, listMax0_append]
    rw [hL, hR, ← max_sub_sub_right pk v v, sub_self]
    simp only [max_assoc, max_comm, max_left_comm]

/-- The source's drawdown fold computes exactly the largest peak-to-trough
drop (0 for an empty curve). -/
theorem maxDrawdown_eq_spec (l : List ℚ) : maxDrawdown l = specMaxDrawdown l := by
  cases l with
  | nil => rfl
  | cons v rest =>
    unfold maxDrawdown specMaxDrawdown
    rw [List.foldl_cons, ddStep_none, maxDrawdownAux_eq,
      foldl_max_eq _ 0 (le_refl 0), ddList_max0]
    have hdrops : drops (v :: rest) = ((v :: rest).map (fun w => v - w)) ++ drops rest := rfl
    rw [hdrops, List.map_cons, List.cons_append, listMax0_cons, sub_self]

theorem drops_nonpos (l : List ℚ) (h : List.Pairwise (fun a b : ℚ => a ≤ b) l) :
    ∀ d ∈ drops l, d ≤ 0 := by
  induction l with
  | nil => intro d hd; simp [drops] at hd
  | cons v r ih =>
    intro d hd
    rw [show drops (v :: r) = ((v :: r).map (fun w => v - w)) ++ drops r from rfl,
      List.mem_append] at hd
    rcases hd with hd | hd
    · rw [List.mem_map] at hd
      obtain ⟨w, hw, rfl⟩ := hd
      rcases List.mem_cons.1 hw with rfl | hw
      · simp
      · have := (List.pairwise_cons.1 h).1 w hw
        linarith
    · exact ih (List.pairwise_cons.1 h).2 d hd

theorem listMax0_of_nonpos (l : List ℚ) (h : ∀ d ∈ l, d ≤ 0) : listMax0 l = 0 := by
  induction l with
  | nil => rfl
  | cons a as ih =>
    rw [listMax0_cons, ih (fun d hd => h d (List.mem_cons_of_mem a hd)),
      max_eq_right (h a (List.mem_cons_self a as))]

/-- Claim C9.  For every result of `runPCABacktest`, the reported
`maxDrawdown` equals the largest peak-to-trough drop of the equity curve, is
never negative, and is exactly 0 whenever the curve is non-decreasing. -/
theorem claim_C9 (ops : NumOps) (data : List Observation) (tenors : List String)
    (w : ℕ) (thr : ℚ) (r : BacktestResult)
    (hok : runPCABacktest ops data tenors w thr = .ok r) :
    r.stats.maxDrawdown = specMaxDrawdown r.equityCurve ∧
    0 ≤ r.stats.maxDrawdown ∧
    (List.Chain' (fun a b : ℚ => a ≤ b) r.equityCurve → r.stats.maxDrawdown = 0) := by
  have hdd : r.stats.maxDrawdown = maxDrawdown r.equityCurve := by
    unfold runPCABacktest at hok
    split at hok
    · exact absurd hok (by simp)
    · cases hok; rfl
  rw [hdd, maxDrawdown_eq_spec]
  refine ⟨rfl, listMax0_nonneg _, fun hchain => ?_⟩
  exact listMax0_of_nonpos _
    (drops_nonpos _ (List.chain'_iff_pairwise.1 hchain))

/-- Claim C9, witness: the trivial two-day run (flat equity curve) has
drawdown 0, matching the spec-side largest drop. -/
theorem claim_C9_witness :
    smResult.stats.maxDrawdown = specMaxDrawdown smResult.equityCurve ∧
    0 ≤ smResult.stats.maxDrawdown ∧
    (List.Chain' (fun a b : ℚ => a ≤ b) smResult.equityCurve →
      smResult.stats.maxDrawdown = 0) :=
  claim_C9 ratOps smData smTenors 1 1 smResult (by decide!)

/-! ## Claim C6 -/

/-- Sorting indices by a key, descending and stably, yields a non-increasing
key sequence together with a permutation pairing each key with its column. -/
theorem sortIdx_sorted_perm (key : ℕ → ℚ) (colf : ℕ → List ℚ) (n : ℕ) :
    List.Pairwise (fun x y : ℚ => y ≤ x)
      ((List.insertionSort (fun a b => key b ≤ key a) (List.range n)).map key) ∧
    (((List.insertionSort (fun a b => key b ≤ key a) (List.range n)).map key).zip
        ((List.insertionSort (fun a b => key b ≤ key a) (List.range n)).map colf)).Perm
      ((List.range n).map (fun i => (key i, colf i))) := by
  haveI htot : IsTotal ℕ (fun a b => key b ≤ key a) := ⟨fun a b => le_total (key b) (key a)⟩
  haveI htrans : IsTrans ℕ (fun a b => key b ≤ key a) :=
    ⟨fun _ _ _ hab hbc => le_trans hbc hab⟩
  constructor
  · exact List.Pairwise.map key (fun _ _ h => h)
      (List.sorted_insertionSort (fun a b => key b ≤ key a) (List.range n))
  · rw [List.zip_map']
    exact (List.perm_insertionSort (fun a b => key b ≤ key a) (List.range n)).map
      (fun i => (key i, colf i))

/-- Claim C6.  For every symmetric matrix, `jacobiEigen` terminates within
the iteration cap (it is a total function built on a fuel-bounded sweep that
returns the current estimate when the budget runs out) and returns its
eigenvalue list sorted in non-increasing order, with the eigenvector list
reordered by the same permutation: the value/vector pairs are a permutation
of the diagonal entries of the final working matrix paired with the matching
columns of the accumulated rotation matrix. -/
theorem claim_C6 (ops : NumOps) (m : Mat) (maxIter : ℕ) (tol : ℚ)
    (hsym : ∀ i < m.length, ∀ j < m.length, getM m i j = getM m j i) :
    List.Pairwise (fun a b : ℚ => b ≤ a) (jacobiEigen ops m maxIter tol).1 ∧
    ((jacobiEigen ops m maxIter tol).1.zip (jacobiEigen ops m maxIter tol).2).Perm
      ((List.range m.length).map (fun i =>
        (getM (jacobiLoop ops tol maxIter (m, identityMat m.length)).1 i i,
         columnOf (jacobiLoop ops tol maxIter (m, identityMat m.length)).2 i))) := by
  by_cases hn : m.length = 0
  · have hm : m = [] := List.length_eq_zero.1 hn
    subst hm
    constructor
    · simp [jacobiEigen]
    · simp [jacobiEigen]
  · have hres : jacobiEigen ops m maxIter tol =
        ((List.insertionSort
            (fun a b => (diagOf (jacobiLoop ops tol maxIter (m, identityMat m.length)).1
                m.length).getD b 0 ≤
              (diagOf (jacobiLoop ops tol maxIter (m, identityMat m.length)).1
                m.length).getD a 0)
            (List.range m.length)).map
          (fun i => (diagOf (jacobiLoop ops tol maxIter (m, identityMat m.length)).1
            m.length).getD i 0),
         (List.insertionSort
            (fun a b => (diagOf (jacobiLoop ops tol maxIter (m, identityMat m.length)).1
                m.length).getD b 0 ≤
              (diagOf (jacobiLoop ops tol maxIter (m, identityMat m.length)).1
                m.length).getD a 0)
            (List.range m.length)).map
          (fun i => columnOf (jacobiLoop ops tol maxIter (m, identityMat m.length)).2 i)) := by
      simp only [jacobiEigen, if_neg hn]
    rw [hres]
    have h := sortIdx_sorted_perm
      (fun i => (diagOf (jacobiLoop ops tol maxIter (m, identityMat m.length)).1
        m.length).getD i 0)
      (fun i => columnOf (jacobiLoop ops tol maxIter (m, identityMat m.length)).2 i)
      m.length
    refine ⟨h.1, h.2.trans (List.Perm.of_eq (List.map_congr_left (fun i hi => ?_)))⟩
    have hi' : i < m.length := List.mem_range.1 hi
    have hkey : (diagOf (jacobiLoop ops tol maxIter (m, identityMat m.length)).1
        m.length).getD i 0
        = getM (jacobiLoop ops tol maxIter (m, identityMat m.length)).1 i i :=
      getD_range_map _ _ _ hi' _
    rw [hkey]

/-- Claim C6, witness: the diagonal matrix `[[5, 0], [0, 7]]` is symmetric
and its eigenvalues come back sorted descending with matching vectors. -/
theorem claim_C6_witness :
    List.Pairwise (fun a b : ℚ => b ≤ a) (jacobiEigen ratOps [[5, 0], [0, 7]] 100 (1/10^8)).1 ∧
    ((jacobiEigen ratOps [[5, 0], [0, 7]] 100 (1/10^8)).1.zip
        (jacobiEigen ratOps [[5, 0], [0, 7]] 100 (1/10^8)).2).Perm
      ((List.range ([[5, 0], [0, 7]] : Mat).length).map (fun i =>
        (getM (jacobiLoop ratOps (1/10^8) 100
            ([[5, 0], [0, 7]], identityMat ([[5, 0], [0, 7]] : Mat).length)).1 i i,
         columnOf (jacobiLoop ratOps (1/10^8) 100
            ([[5, 0], [0, 7]], identityMat ([[5, 0], [0, 7]] : Mat).length)).2 i))) :=
  claim_C6 ratOps [[5, 0], [0, 7]] 100 (1/10^8) (by decide!)

/-! ## Claim C8 -/

/-- The fully-numeric observation obtained by coercing every tenor read. -/
def sanitize (tenors : List String) (d : Observation) : Observation :=
  ⟨d.date, tenors.map (fun t => (t, JsVal.num (readNum d t)))⟩

theorem lookup_map_num (t : String) (l : List String) (f : String → ℚ) :
    List.lookup t (l.map (fun s => (s, JsVal.num (f s))))
      = if t ∈ l then some (JsVal.num (f t)) else none := by
  induction l with
  | nil => simp
  | cons s ss ih =>
    by_cases hts : t = s
    · subst hts
      simp [List.lookup]
    · have hb : (t == s) = false := beq_eq_false_iff_ne.2 hts
      simp only [List.map_cons, List.lookup, hb, ih, List.mem_cons]
      by_cases hmem : t ∈ ss
      · rw [if_pos hmem, if_pos (Or.inr hmem)]
      · rw [if_neg hmem, if_neg (fun h => h.elim hts hmem)]

theorem readNum_sanitize (tenors : List String) (d : Observation) (t : String)
    (ht : t ∈ tenors) : readNum (sanitize tenors d) t = readNum d t := by
  unfold readNum sanitize
  simp only [lookup_map_num, if_pos ht]
  rfl

theorem toMatrix_sanitize (raw : List Observation) (tenors : List String) :
    toMatrix (raw.map (sanitize tenors)) tenors = toMatrix raw tenors := by
  unfold toMatrix
  rw [List.map_map]
  exact List.map_congr_left (fun d _ =>
    List.map_congr_left (fun t ht => readNum_sanitize tenors d t ht))

/-- Claim C8.  `performPCA` is total over loosely-typed input: the empty
observation list returns the all-empty result with the tenor list preserved
(no exception), and a non-empty input is processed exactly as if every
missing or non-numeric tenor value had first been coerced to 0, so no NaN
enters the decomposition pipeline. -/
theorem claim_C8 (ops : NumOps) (tenors : List String) :
    performPCA ops [] tenors = ⟨[], [], [], [], [], [], tenors⟩ ∧
    ∀ raw : List Observation,
      performPCA ops raw tenors = performPCA ops (raw.map (sanitize tenors)) tenors := by
  refine ⟨rfl, fun raw => ?_⟩
  cases raw with
  | nil => rfl
  | cons d ds =>
    have htm := toMatrix_sanitize (d :: ds) tenors
    have hie : (List.map (sanitize tenors) (d :: ds)).isEmpty = (d :: ds).isEmpty := rfl
    simp only [performPCA, hie, htm]

/-! ## Claim C4 -/

theorem getD_of_le {α : Type} (l : List α) (k : ℕ) (d : α) (h : l.length ≤ k) :
    l.getD k d = d := by
  induction l generalizing k with
  | nil => cases k <;> rfl
  | cons a as ih =>
    cases k with
    | zero => simp at h
    | succ k => exact ih k (by simpa using h)

theorem dotIdx_nil (r : List ℚ) : dotIdx r [] = 0 := by
  unfold dotIdx
  rw [List.sum_eq_zero]
  intro x hx
  rw [List.mem_map] at hx
  obtain ⟨j, _, rfl⟩ := hx
  rw [List.getD_nil, mul_zero]

theorem toMatrix_length (raw : List Observation) (tenors : List String) :
    (toMatrix raw tenors).length = raw.length := List.length_map _ _

theorem centerData_length (m : Mat) (means : List ℚ) :
    (centerData m means).length = m.length := List.length_map _ _

theorem rowOf_getD (d : Observation) (tenors : List String) (j : ℕ)
    (hj : j < tenors.length) :
    (rowOf d tenors).getD j 0 = readNum d (tenors.getD j ("")) :=
  getD_map_lt _ tenors j hj ("") 0

theorem performPCA_meanVector (ops : NumOps) (raw : List Observation)
    (tenors : List String) (h : ¬ raw = []) :
    (performPCA ops raw tenors).meanVector
      = computeMeanVector (toMatrix raw tenors) := by
  cases raw with
  | nil => exact absurd rfl h
  | cons d ds => rfl

theorem performPCA_scores (ops : NumOps) (raw : List Observation)
    (tenors : List String) (h : ¬ raw = []) :
    (performPCA ops raw tenors).scores
      = (centerData (toMatrix raw tenors) ((performPCA ops raw tenors).meanVector)).map
          (fun row => (performPCA ops raw tenors).eigenvectors.map
            (fun vec => dotIdx row vec)) := by
  cases raw with
  | nil => exact absurd rfl h
  | cons d ds => rfl

theorem toMatrix_getD (raw : List Observation) (tenors : List String) (w : ℕ)
    (hw : w < raw.length) :
    (toMatrix raw tenors).getD w [] = rowOf (raw.getD w ⟨"", []⟩) tenors :=
  getD_map_lt _ raw w hw ⟨"", []⟩ []

theorem centerData_getD (ops : NumOps) (raw : List Observation)
    (tenors : List String) (w : ℕ) (hw : w < raw.length) :
    (centerData (toMatrix raw tenors) ((performPCA ops raw tenors).meanVector)).getD w []
      = specCentered (performPCA ops raw tenors) (rowOf (raw.getD w ⟨"", []⟩) tenors) := by
  unfold centerData specCentered
  rw [getD_map_lt _ (toMatrix raw tenors) w (by rw [toMatrix_length]; exact hw) [] []]
  rw [toMatrix_getD raw tenors w hw]

/-- The stored score row of a window observation is exactly the fresh
projection of its centered row onto the aligned eigenvectors. -/
theorem scores_getD (ops : NumOps) (raw : List Observation) (tenors : List String)
    (w k : ℕ) (hw : w < raw.length) :
    (((performPCA ops raw tenors).scores.getD w []).getD k 0)
      = specScore (performPCA ops raw tenors)
          (rowOf (raw.getD w ⟨"", []⟩) tenors) k := by
  have hne : ¬ raw = [] := by
    intro h; rw [h] at hw; simp at hw
  rw [performPCA_scores ops raw tenors hne]
  rw [getD_map_lt _ _ w (by rw [centerData_length, toMatrix_length]; exact hw) [] []]
  rw [centerData_getD ops raw tenors w hw]
  unfold specScore
  by_cases hk : k < (performPCA ops raw tenors).eigenvectors.length
  · rw [getD_map_lt _ _ k hk [] 0]
  · have hk' : (performPCA ops raw tenors).eigenvectors.length ≤ k := not_lt.1 hk
    rw [getD_of_le _ k 0 (by rw [List.length_map]; exact hk'),
      getD_of_le _ k [] hk', dotIdx_nil]

/-- The centered row `zScoreOf` computes for an observation equals the
specification's centering of that observation's numeric row. -/
theorem centeredRow_eq (pca : PCAResult) (d : Observation) (tenors : List String) :
    (List.range tenors.length).map
        (fun idx => readNum d (tenors.getD idx ("")) - pca.meanVector.getD idx 0)
      = specCentered pca (rowOf d tenors) := by
  unfold specCentered
  rw [show (rowOf d tenors).length = tenors.length from List.length_map _ _]
  apply List.map_congr_left
  intro j hj
  rw [rowOf_getD d tenors j (List.mem_range.1 hj)]

/-- Claim C4.  The z-score `runPCABacktest` computes for every simulated day
and tenor equals the specification's: the residual of today's yield against
the 3-component model-implied yield, divided by the population standard
deviation (sum of squared in-window residuals under the same fitted model
divided by the window size, not `n - 1`), and exactly 0 — never a NaN or an
infinity, which the exact rational semantics cannot even produce — when that
standard deviation is 0. -/
theorem claim_C4 (ops : NumOps) (windowData : List Observation)
    (tenors : List String) (today : Observation) (windowSize : ℕ) (tIdx : ℕ)
    (ht : tIdx < tenors.length) :
    zScoreOf ops (performPCA ops windowData tenors) windowData today tenors
        windowSize tIdx
      = specZScore ops (performPCA ops windowData tenors) windowData today tenors
          windowSize tIdx := by
  have hres : readNum today (tenors.getD tIdx ("")) -
      ((performPCA ops windowData tenors).meanVector.getD tIdx 0 +
        ((List.range 3).map (fun k =>
          dotIdx ((List.range tenors.length).map
              (fun idx => readNum today (tenors.getD idx ("")) -
                (performPCA ops windowData tenors).meanVector.getD idx 0))
            ((performPCA ops windowData tenors).eigenvectors.getD k []) *
            ((performPCA ops windowData tenors).eigenvectors.getD k []).getD tIdx 0)).sum)
      = specResidual (performPCA ops windowData tenors) (rowOf today tenors) tIdx := by
    unfold specResidual specModelYield
    rw [rowOf_getD today tenors tIdx ht]
    rw [centeredRow_eq (performPCA ops windowData tenors) today tenors]
    rfl
  have hsum : ((List.range windowData.length).map (fun w =>
      (readNum (windowData.getD w ⟨"", []⟩) (tenors.getD tIdx ("")) -
        ((performPCA ops windowData tenors).meanVector.getD tIdx 0 +
          ((List.range 3).map (fun k =>
            ((performPCA ops windowData tenors).scores.getD w []).getD k 0 *
              ((performPCA ops windowData tenors).eigenvectors.getD k []).getD tIdx 0)).sum))
      * (readNum (windowData.getD w ⟨"", []⟩) (tenors.getD tIdx ("")) -
        ((performPCA ops windowData tenors).meanVector.getD tIdx 0 +
          ((List.range 3).map (fun k =>
            ((performPCA ops windowData tenors).scores.getD w []).getD k 0 *
              ((performPCA ops windowData tenors).eigenvectors.getD k []).getD tIdx 0)).sum)))).sum
      = ((windowData.map (fun d =>
          specResidual (performPCA ops windowData tenors) (rowOf d tenors) tIdx)).map
            (fun r => r ^ 2)).sum := by
    rw [List.map_map]
    rw [show ((fun r : ℚ => r ^ 2) ∘ fun d =>
        specResidual (performPCA ops windowData tenors) (rowOf d tenors) tIdx)
      = fun d => (specResidual (performPCA ops windowData tenors) (rowOf d tenors) tIdx) ^ 2
      from rfl]
    rw [map_eq_range_map (fun d =>
      (specResidual (performPCA ops windowData tenors) (rowOf d tenors) tIdx) ^ 2)
      windowData ⟨"", []⟩]
    apply congrArg
    apply List.map_congr_left
    intro w hw
    have hw' : w < windowData.length := List.mem_range.1 hw
    have hScoreMap : (List.range 3).map (fun k =>
        ((performPCA ops windowData tenors).scores.getD w []).getD k 0 *
          ((performPCA ops windowData tenors).eigenvectors.getD k []).getD tIdx 0)
        = (List.range 3).map (fun k =>
          specScore (performPCA ops windowData tenors)
              (rowOf (windowData.getD w ⟨"", []⟩) tenors) k *
            ((performPCA ops windowData tenors).eigenvectors.getD k []).getD tIdx 0) :=
      List.map_congr_left (fun k _ => by
        rw [scores_getD ops windowData tenors w k hw'])
    rw [hScoreMap]
    unfold specResidual specModelYield
    rw [rowOf_getD _ tenors tIdx ht]
    ring
  unfold zScoreOf specZScore specPopStd
  dsimp only
  rw [hres, hsum]

/-- Claim C4, witness: concrete evaluation of both sides on the two-day
series, tenor index 0. -/
theorem claim_C4_witness :
    zScoreOf ratOps (performPCA ratOps smData smTenors) smData
        ⟨"d1", [("1M", .num 4), ("3M", .num 5), ("6M", .num 6)]⟩ smTenors 1 0
      = specZScore ratOps (performPCA ratOps smData smTenors) smData
          ⟨"d1", [("1M", .num 4), ("3M", .num 5), ("6M", .num 6)]⟩ smTenors 1 0 :=
  claim_C4 ratOps smData smTenors
    ⟨"d1", [("1M", .num 4), ("3M", .num 5), ("6M", .num 6)]⟩ 1 0 (by decide!)

end YC
